import Mathlib

/-!
Shallow embedding of the data model and the transform pipeline of the
Anyalyzerhub GitHub profile dashboard (src/app/dashboard/page.tsx), with
proofs of the behavioural properties stated in its specification: the
repository sorter, the language aggregator and its chart data, the
paginator, the summary generator, and the fetch orchestrator modelled as
an explicit transition on the component state.
-/

open List

namespace Anyalyzerhub

/-- Profile record as returned by the user endpoint.  Mirrors the
`GitHubData` interface of the source; the `name` field is absent from the
TypeScript interface but present in the runtime JSON and read by
`generateAiSummary` (`userData.name || userData.login`), so it is carried
here as an optional string.  `created_at` keeps its ISO-8601 string form. -/
structure GitHubData where
  login : String
  name : Option String
  avatar_url : String
  html_url : String
  public_repos : Nat
  followers : Nat
  following : Nat
  bio : Option String
  location : Option String
  created_at : String
  repos_url : String
deriving DecidableEq

/-- Repository record, mirroring the `RepoData` interface.  `updated_at`
is modelled as the integer produced by `new Date(s).getTime()` (epoch
milliseconds): the ISO-8601 timestamps of the API compare in the same
order as these integers, and the source only ever reads the timestamp
through `getTime`. -/
structure RepoData where
  id : Int
  name : String
  stargazers_count : Nat
  forks_count : Nat
  language : Option String
  homepage : Option String
  updated_at : Int
deriving DecidableEq

/-- The component state of `Dashboard`: one field per `useState` hook. -/
structure ViewState where
  username : String
  data : Option GitHubData
  repos : List RepoData
  error : String
  loading : Bool
  currentPage : Nat
  reposPerPage : Nat
  aiSummary : String
deriving DecidableEq

/-- Initial values of the `useState` hooks. -/
def initialState : ViewState :=
  { username := "", data := none, repos := [], error := "", loading := true,
    currentPage := 1, reposPerPage := 10, aiSummary := "" }

/-- Numeric value of a decimal digit character. -/
def digitVal (c : Char) : Nat := c.toNat - 48

/-- Numeric value of a list of decimal digit characters. -/
def decimalValue (cs : List Char) : Nat := cs.foldl (fun acc c => acc * 10 + digitVal c) 0

/-- Year of an ISO-8601 date string: the numeric value of its first four
characters.  Models `new Date(s).getFullYear()` as the source applies it
to the `created_at` field of the API. -/
def getFullYear (s : String) : Nat := decimalValue (s.data.take 4)

/-- JavaScript `a || b` where `a` is an optional string: the fallback is
taken when the field is absent (null or undefined) or is the empty
string, since both are falsy. -/
def jsOr (a : Option String) (b : String) : String :=
  match a with
  | some s => if s = "" then b else s
  | none => b

/-- Text a JavaScript template literal renders for an undefined
interpolated expression. -/
def undefinedStr : String := "undefined"

/-- First interpolation of the highlighted-repository clause:
`repos[0]?.name`, which is undefined on an empty list. -/
def firstRepoName (repos : List RepoData) : String :=
  match repos with
  | [] => undefinedStr
  | r :: _ => r.name

/-- Second interpolation of the highlighted-repository clause:
`repos[0]?.stargazers_count`. -/
def firstRepoStars (repos : List RepoData) : String :=
  match repos with
  | [] => undefinedStr
  | r :: _ => toString r.stargazers_count

/-- The sentence built by `generateAiSummary`.  The source stores it with
`setAiSummary`; here the sentence itself is returned and the orchestrator
writes it into the state. -/
def generateAiSummary (userData : GitHubData) (repos : List RepoData) : String :=
  "This GitHub profile belongs to " ++ jsOr userData.name userData.login ++
  ", who joined GitHub in " ++ toString (getFullYear userData.created_at) ++
  ". They have " ++ toString userData.public_repos ++ " public repositories, " ++
  toString userData.followers ++ " followers, and are following " ++
  toString userData.following ++ " users. Their most popular repository is \"" ++
  firstRepoName repos ++ "\" with " ++ firstRepoStars repos ++ " stars."

/-- Ordering relation realised by the sort comparator
`(a, b) => getTime(b.updated_at) - getTime(a.updated_at)`:
`a` may precede `b` exactly when the comparator value is non-positive. -/
def updatedDesc (a b : RepoData) : Prop := b.updated_at ≤ a.updated_at

instance : DecidableRel updatedDesc := fun a b => Int.decLe b.updated_at a.updated_at

instance : IsTotal RepoData updatedDesc := ⟨fun a b => Int.le_total b.updated_at a.updated_at⟩

instance : IsTrans RepoData updatedDesc := ⟨fun _ _ _ h1 h2 => le_trans h2 h1⟩

/-- The repository sort performed by `fetchGitHubData`.
`Array.prototype.sort` is required by ECMAScript to be a stable sort
consistent with the comparator; it is modelled by the stable insertion
sort over `updatedDesc`. -/
def sortRepos (l : List RepoData) : List RepoData := l.insertionSort updatedDesc

/-- One step of the reduce accumulator `acc[lang] = (acc[lang] || 0) + 1`
on a JavaScript object, modelled as an association list kept in property
creation order: the first entry with this key is incremented in place,
otherwise a new entry is appended at the end. -/
def bumpLang (acc : List (String × Nat)) (lang : String) : List (String × Nat) :=
  match acc with
  | [] => [(lang, 1)]
  | (k, v) :: rest => if k = lang then (k, v + 1) :: rest else (k, v) :: bumpLang rest lang

/-- JavaScript truthiness of `repo.language` as tested by
`if (repo.language)`: both null and the empty string are falsy. -/
def languageTruthy (r : RepoData) : Bool :=
  match r.language with
  | some lang => !(lang == "")
  | none => false

/-- Callback of the `languageUsage` reduce: count a repository under its
language when the language is truthy, otherwise leave the accumulator. -/
def langStep (acc : List (String × Nat)) (repo : RepoData) : List (String × Nat) :=
  match repo.language with
  | some lang => if lang = "" then acc else bumpLang acc lang
  | none => acc

/-- The `languageUsage` reduce of the source: tally of repositories per
truthy language, keyed in property creation order. -/
def languageUsage (repos : List RepoData) : List (String × Nat) :=
  repos.foldl langStep []

/-- Whether a string is a canonical array-index property key in the sense
of ECMAScript: the canonical decimal form of an integer below 2^32 - 1.
Such keys are enumerated before all other string keys by `Object.keys`. -/
def isArrayIndexStr (s : String) : Bool :=
  !s.data.isEmpty && s.data.all Char.isDigit &&
    (decide (s.data = ['0']) || !(decide (s.data.head? = some '0'))) &&
    decide (decimalValue s.data < 4294967295)

/-- Key enumeration order of `Object.keys` on a JavaScript object built
by the aggregation: canonical array-index keys first in ascending numeric
order, then the remaining keys in property creation order. -/
def jsObjectKeys (entries : List (String × Nat)) : List String :=
  ((entries.map Prod.fst).filter isArrayIndexStr).insertionSort
      (fun a b => decimalValue a.data ≤ decimalValue b.data) ++
    (entries.map Prod.fst).filter (fun k => !isArrayIndexStr k)

/-- The donut chart entries: one `(language, count)` pair per key of
`languageUsage`, in `Object.keys` enumeration order.  The random `fill`
colour of the source is cosmetic and non-deterministic and is not
modelled. -/
def donutChartData (repos : List RepoData) : List (String × Nat) :=
  (jsObjectKeys (languageUsage repos)).map
    (fun key => (key, ((languageUsage repos).lookup key).getD 0))

/-- Number of pagination buttons rendered:
`Math.ceil(repos.length / reposPerPage)`. -/
def numPages (s : ViewState) : Nat :=
  (s.repos.length + s.reposPerPage - 1) / s.reposPerPage

/-- The slice of repositories shown on the current page:
`repos.slice(indexOfFirstRepo, indexOfLastRepo)` where
`indexOfLastRepo = currentPage * reposPerPage` and
`indexOfFirstRepo = indexOfLastRepo - reposPerPage`; a slice takes at
most `last - first` elements starting at index `first`. -/
def currentRepos (s : ViewState) : List RepoData :=
  (s.repos.drop (s.currentPage * s.reposPerPage - s.reposPerPage)).take
    (s.currentPage * s.reposPerPage - (s.currentPage * s.reposPerPage - s.reposPerPage))

/-- The `paginate` callback: store the requested page number verbatim. -/
def paginate (pageNumber : Nat) (s : ViewState) : ViewState :=
  { s with currentPage := pageNumber }

/-- Stub of the network for one search: the response to the profile
request and to the repository-list request.  `none` models a non-2xx
response (`res.ok` false); hung requests and malformed bodies are out of
scope. -/
structure FetchEnv where
  profileResp : Option GitHubData
  reposResp : Option (List RepoData)
deriving DecidableEq

/-- The fetch orchestrator `fetchGitHubData` as a transition on
`ViewState`, paired with the list of request URLs issued.  It mirrors the
source path by path: the early return on a falsy username, the clearing
of error, data, repos and summary before fetching, the two guarded
fetches whose thrown messages are caught into `error`, and the `finally`
clause that sets `loading` to false on every path past the guard. -/
def fetchGitHubData (env : FetchEnv) (s : ViewState) : ViewState × List String :=
  if s.username = "" then (s, [])
  else
    let s1 : ViewState := { s with error := "", data := none, repos := [], aiSummary := "" }
    let req1 := "https://api.github.com/users/" ++ s.username
    match env.profileResp with
    | none => ({ s1 with error := "User not found", loading := false }, [req1])
    | some userData =>
      match env.reposResp with
      | none => ({ s1 with error := "Repositories not found", loading := false },
                 [req1, userData.repos_url])
      | some reposData =>
        let sortedRepos := sortRepos reposData
        ({ s1 with data := some userData, repos := sortedRepos,
                   aiSummary := generateAiSummary userData sortedRepos,
                   loading := false },
         [req1, userData.repos_url])

/-- Specification-side predicate: `t` occurs as a contiguous substring of
`s`. -/
def strContains (s t : String) : Prop := ∃ a b, s = a ++ t ++ b

/-- Languages of the repositories that pass the truthiness test, in input
order, with multiplicity. -/
def truthyLangs (repos : List RepoData) : List String :=
  (repos.filterMap (fun r => r.language)).filter (fun lang => !(lang == ""))

/-- First occurrence of each element not yet seen, keeping input order. -/
def firstOcc (seen : List String) : List String → List String
  | [] => []
  | lang :: rest =>
    if lang ∈ seen then firstOcc seen rest else lang :: firstOcc (lang :: seen) rest

/-- Specification-side definition, following the words of the spec: the
distinct truthy languages in insertion order of first occurrence. -/
def firstOccLangs (repos : List RepoData) : List String := firstOcc [] (truthyLangs repos)

/-- Scenario repository A of the specification; `updated_at` holds the
timestamp value of 2023-01-01. -/
def repoA : RepoData :=
  { id := 1, name := "A", stargazers_count := 5, forks_count := 0,
    language := none, homepage := none, updated_at := 20230101 }

/-- Scenario repository B of the specification; `updated_at` holds the
timestamp value of 2024-01-01, the most recent of the two. -/
def repoB : RepoData :=
  { id := 2, name := "B", stargazers_count := 20, forks_count := 0,
    language := none, homepage := none, updated_at := 20240101 }

/-- Scenario repositories in unsorted input order. -/
def adaRepos : List RepoData := [repoA, repoB]

/-- Scenario profile of the specification. -/
def adaProfile : GitHubData :=
  { login := "ada", name := none, avatar_url := "", html_url := "",
    public_repos := 2, followers := 10, following := 1, bio := none,
    location := none, created_at := "2015-06-01", repos_url := "" }

/-- Repository fixture with a chosen id and language. -/
def mkLangRepo (i : Int) (lang : Option String) : RepoData :=
  { id := i, name := "r", stargazers_count := 0, forks_count := 0,
    language := lang, homepage := none, updated_at := 0 }

/-- State in which a user has paged to page 3 of an earlier result and
then starts a new search. -/
def pageThreeState : ViewState :=
  { username := "octocat", data := none, repos := [], error := "", loading := false,
    currentPage := 3, reposPerPage := 10, aiSummary := "" }

/-- Five repositories, giving a single page at ten per page. -/
def fiveRepos : List RepoData :=
  [mkLangRepo 1 none, mkLangRepo 2 none, mkLangRepo 3 none,
   mkLangRepo 4 none, mkLangRepo 5 none]

/-- Network stub in which both fetches succeed and five repositories are
returned. -/
def fiveRepoEnv : FetchEnv := { profileResp := some adaProfile, reposResp := some fiveRepos }

/-- Network stub in which the profile fetch itself fails. -/
def profileFailEnv : FetchEnv := { profileResp := none, reposResp := none }

/-- Network stub in which the profile fetch succeeds but the repository
fetch fails. -/
def reposFailEnv : FetchEnv := { profileResp := some adaProfile, reposResp := none }

/-- State holding a fresh non-empty search box over the initial state. -/
def searchState : ViewState :=
  { username := "octocat", data := none, repos := [], error := "", loading := true,
    currentPage := 1, reposPerPage := 10, aiSummary := "" }

/-- Repositories with languages TypeScript, TypeScript and null. -/
def twoLangRepos : List RepoData :=
  [mkLangRepo 1 (some "TypeScript"), mkLangRepo 2 (some "TypeScript"), mkLangRepo 3 none]

/-- Repositories with languages Rust, Go and Rust in that order. -/
def rustGoRepos : List RepoData :=
  [mkLangRepo 1 (some "Rust"), mkLangRepo 2 (some "Go"), mkLangRepo 3 (some "Rust")]

/-- Repositories whose languages are the non-numeric name B followed by
the numeric-like name 1. -/
def numericLangRepos : List RepoData :=
  [mkLangRepo 1 (some "B"), mkLangRepo 2 (some "1")]

/-- Single repository whose language is the empty string: non-null, yet
falsy for JavaScript. -/
def emptyLangRepo : RepoData := mkLangRepo 9 (some "")

/-- Small state for exercising the paginator: three repositories at two
per page, second page selected. -/
def smallPagedState : ViewState :=
  { username := "octocat", data := none,
    repos := [mkLangRepo 1 none, mkLangRepo 2 none, mkLangRepo 3 none],
    error := "", loading := false, currentPage := 2, reposPerPage := 2, aiSummary := "" }

/-- Stability of the repository sort: filtering the sorted list down to
any one timestamp returns those records in their original relative
order. -/
theorem sortRepos_filter_stable (l : List RepoData) (t : Int) :
    (sortRepos l).filter (fun r => decide (r.updated_at = t)) =
      l.filter (fun r => decide (r.updated_at = t)) := by
  have hpair : (l.filter (fun r => decide (r.updated_at = t))).Pairwise updatedDesc := by
    refine List.pairwise_of_forall_mem_list ?_
    intro a ha b hb
    have ha2 := (List.mem_filter.1 ha).2
    have hb2 := (List.mem_filter.1 hb).2
    simp only [decide_eq_true_eq] at ha2 hb2
    unfold updatedDesc
    rw [ha2, hb2]
  have hsub : l.filter (fun r => decide (r.updated_at = t)) <+ sortRepos l :=
    List.sublist_insertionSort hpair (List.filter_sublist l)
  have hsub2 : l.filter (fun r => decide (r.updated_at = t)) <+
      (sortRepos l).filter (fun r => decide (r.updated_at = t)) := by
    have h2 := hsub.filter (fun r => decide (r.updated_at = t))
    simpa [List.filter_filter] using h2
  have hperm : (sortRepos l).filter (fun r => decide (r.updated_at = t)) ~
      l.filter (fun r => decide (r.updated_at = t)) :=
    (List.perm_insertionSort updatedDesc l).filter _
  exact (hsub2.eq_of_length hperm.length_eq.symm).symm

/-- C3: the Repository Sorter returns a permutation of its input of equal
length, ordered non-increasing by `updated_at` (most recent first), and
records with equal `updated_at` keep their original relative order
(stable sort); at the value level of this embedding the input list is
left untouched, the in-place character of `Array.prototype.sort` being
unobservable in the source because only the sorted result is ever read. -/
theorem sorter_perm_sorted_stable (l : List RepoData) :
    (sortRepos l).length = l.length ∧
    sortRepos l ~ l ∧
    (sortRepos l).Pairwise updatedDesc ∧
    ∀ t : Int, (sortRepos l).filter (fun r => decide (r.updated_at = t)) =
      l.filter (fun r => decide (r.updated_at = t)) :=
  ⟨List.length_insertionSort updatedDesc l, List.perm_insertionSort updatedDesc l,
    List.sorted_insertionSort updatedDesc l, sortRepos_filter_stable l⟩

/-- Concatenating consecutive size-wide chunks of a list restores the
list, provided the chunk count covers its length. -/
theorem chunks_flatten (size : Nat) :
    ∀ (n : Nat) (l : List RepoData), l.length ≤ n * size →
      ((List.range n).map (fun i => (l.drop (i * size)).take size)).flatten = l
  | 0, l, hl => by
    have hnil : l = [] := List.eq_nil_of_length_eq_zero (by omega)
    simp [hnil]
  | n + 1, l, hl => by
    rw [List.range_succ_eq_map]
    simp only [List.map_cons, List.map_map, List.flatten_cons, Nat.zero_mul, List.drop_zero]
    have hstep : ∀ i : Nat, l.drop ((i + 1) * size) = (l.drop size).drop (i * size) := by
      intro i
      rw [List.drop_drop]
      congr 1
      ring
    have hmapeq : (List.range n).map ((fun i => (l.drop (i * size)).take size) ∘ Nat.succ)
        = (List.range n).map (fun i => ((l.drop size).drop (i * size)).take size) := by
      refine List.map_congr_left ?_
      intro i _
      simp only [Function.comp_apply, Nat.succ_eq_add_one]
      rw [hstep i]
    have hrec : ((List.range n).map
        (fun i => ((l.drop size).drop (i * size)).take size)).flatten = l.drop size := by
      refine chunks_flatten size n (l.drop size) ?_
      have hlen := List.length_drop size l
      have hms : (n + 1) * size = n * size + size := Nat.succ_mul n size
      omega
    rw [hmapeq, hrec, List.take_append_drop]

/-- The length of a list is covered by `ceil (length / size)` chunks of
width `size`. -/
theorem length_le_ceil_mul (len size : Nat) (hsize : 0 < size) :
    len ≤ ((len + size - 1) / size) * size := by
  rcases Nat.eq_zero_or_pos len with rfl | hpos
  · simp
  · have h1 : len + size - 1 = (len - 1) + size := by omega
    rw [h1, Nat.add_div_right _ hsize]
    have h2 : (len - 1) / size < (len - 1) / size + 1 := Nat.lt_succ_self _
    have h3 := (Nat.div_lt_iff_lt_mul hsize).1 h2
    omega

/-- The page shown for page number `i + 1` is the chunk of width
`reposPerPage` starting at offset `i * reposPerPage`. -/
theorem currentRepos_paginate (s : ViewState) (i : Nat) :
    currentRepos (paginate (i + 1) s)
      = (s.repos.drop (i * s.reposPerPage)).take s.reposPerPage := by
  have hsm : (i + 1) * s.reposPerPage = i * s.reposPerPage + s.reposPerPage :=
    Nat.succ_mul i s.reposPerPage
  have h1 : (i + 1) * s.reposPerPage - s.reposPerPage = i * s.reposPerPage := by omega
  have h2 : (i + 1) * s.reposPerPage - ((i + 1) * s.reposPerPage - s.reposPerPage)
      = s.reposPerPage := by omega
  simp only [currentRepos, paginate]
  rw [h2, h1]

/-- C5: on a valid page the Paginator yields exactly the slice
`[(currentPage - 1) * pageSize, currentPage * pageSize)` clipped to the
list, of length at most `pageSize`, and the concatenation of pages 1
through `ceil (length / pageSize)` restores the stored repository list
exactly once. -/
theorem paginator_correct (s : ViewState) (hsize : 0 < s.reposPerPage)
    (hp1 : 1 ≤ s.currentPage) (_hp2 : s.currentPage ≤ numPages s) :
    currentRepos s
      = (s.repos.drop ((s.currentPage - 1) * s.reposPerPage)).take s.reposPerPage ∧
    (currentRepos s).length ≤ s.reposPerPage ∧
    ((List.range (numPages s)).map (fun i => currentRepos (paginate (i + 1) s))).flatten
      = s.repos := by
  have hge : s.reposPerPage ≤ s.currentPage * s.reposPerPage := by
    calc s.reposPerPage = 1 * s.reposPerPage := (one_mul _).symm
    _ ≤ s.currentPage * s.reposPerPage := Nat.mul_le_mul_right _ hp1
  have hidx : s.currentPage * s.reposPerPage - s.reposPerPage
      = (s.currentPage - 1) * s.reposPerPage := by
    rw [Nat.sub_mul, one_mul]
  have htake : s.currentPage * s.reposPerPage -
      (s.currentPage * s.reposPerPage - s.reposPerPage) = s.reposPerPage := by omega
  refine ⟨?_, ?_, ?_⟩
  · unfold currentRepos
    rw [htake, hidx]
  · unfold currentRepos
    rw [htake]
    simp [List.length_take]
  · have hmapeq : (List.range (numPages s)).map (fun i => currentRepos (paginate (i + 1) s))
        = (List.range (numPages s)).map
            (fun i => (s.repos.drop (i * s.reposPerPage)).take s.reposPerPage) :=
      List.map_congr_left (fun i _ => currentRepos_paginate s i)
    rw [hmapeq]
    exact chunks_flatten s.reposPerPage (numPages s) s.repos
      (length_le_ceil_mul s.repos.length s.reposPerPage hsize)

/-- Witness for C5 at a concrete state: three repositories at two per
page, page 2 selected. -/
theorem paginator_correct_witness : (currentRepos smallPagedState).length
    ≤ smallPagedState.reposPerPage :=
  (paginator_correct smallPagedState (by decide) (by decide) (by decide)).2.1

/-- C2 counterexample: starting a new search from page 3 with five
repositories returned leaves `currentPage` at 3, outside the valid range
`[1, ceil(5 / 10)] = [1, 1]`; the fetch orchestrator does not reset the
page. -/
theorem fetch_does_not_reset_page :
    (fetchGitHubData fiveRepoEnv pageThreeState).1.currentPage = 3 ∧
    (fetchGitHubData fiveRepoEnv pageThreeState).1.repos.length = 5 ∧
    ¬ (fetchGitHubData fiveRepoEnv pageThreeState).1.currentPage
        ≤ numPages (fetchGitHubData fiveRepoEnv pageThreeState).1 := by
  refine ⟨by decide, by decide, by decide⟩

/-- C2 amended: the fetch orchestrator leaves `currentPage` untouched (no
reset on a new fetch), `paginate` stores the requested page number
verbatim with no clamping, and the initial page is 1; hence `currentPage`
is simply the last requested page and lies in
`[1, ceil(repositoryCount / pageSize)]` only if that request did. -/
theorem page_not_reset_on_fetch :
    initialState.currentPage = 1 ∧
    (∀ (env : FetchEnv) (s : ViewState),
      (fetchGitHubData env s).1.currentPage = s.currentPage) ∧
    (∀ (n : Nat) (s : ViewState), (paginate n s).currentPage = n) := by
  refine ⟨rfl, ?_, fun n s => rfl⟩
  intro env s
  obtain ⟨p, r⟩ := env
  by_cases h : s.username = ""
  · simp [fetchGitHubData, h]
  · cases p <;> cases r <;> simp [fetchGitHubData, h]

/-- C7: when the search box is non-empty and either fetch fails, the
resulting state carries exactly the human-readable message of the failed
fetch and profile, repositories and summary are all empty; in particular
a profile whose repository fetch fails is never stored. -/
theorem fetch_failure_clears_state (env : FetchEnv) (s : ViewState)
    (h : s.username ≠ "") :
    (env.profileResp = none →
      (fetchGitHubData env s).1.error = "User not found" ∧
      (fetchGitHubData env s).1.data = none ∧
      (fetchGitHubData env s).1.repos = [] ∧
      (fetchGitHubData env s).1.aiSummary = "") ∧
    (∀ u : GitHubData, env.profileResp = some u → env.reposResp = none →
      (fetchGitHubData env s).1.error = "Repositories not found" ∧
      (fetchGitHubData env s).1.data = none ∧
      (fetchGitHubData env s).1.repos = [] ∧
      (fetchGitHubData env s).1.aiSummary = "") := by
  obtain ⟨p, r⟩ := env
  constructor
  · intro hp
    simp only at hp
    subst hp
    simp [fetchGitHubData, h]
  · intro u hp hr
    simp only at hp hr
    subst hp
    subst hr
    simp [fetchGitHubData, h]

/-- Witness for C7 at a concrete failing profile fetch. -/
theorem fetch_failure_clears_state_witness :
    (fetchGitHubData profileFailEnv searchState).1.error = "User not found" ∧
    (fetchGitHubData profileFailEnv searchState).1.data = none ∧
    (fetchGitHubData profileFailEnv searchState).1.repos = [] ∧
    (fetchGitHubData profileFailEnv searchState).1.aiSummary = "" :=
  (fetch_failure_clears_state profileFailEnv searchState (by decide)).1 rfl

/-- C8: with an empty search box the orchestrator returns before touching
anything: no request URL is issued and the whole state, every field
included, is returned unchanged. -/
theorem empty_username_noop (env : FetchEnv) (s : ViewState) (h : s.username = "") :
    fetchGitHubData env s = (s, []) := by
  simp [fetchGitHubData, h]

/-- Witness for C8 at the initial state, whose search box is empty. -/
theorem empty_username_noop_witness :
    fetchGitHubData fiveRepoEnv initialState = (initialState, []) :=
  empty_username_noop fiveRepoEnv initialState rfl

/-- C10: `loading` starts out true, an empty-identifier search leaves it
unchanged (hence still true before any real search), any search with a
non-empty identifier ends with it false whether the fetches succeed or
fail, and once false it can never become true again, no path of the
orchestrator setting it to true. -/
theorem loading_lifecycle :
    initialState.loading = true ∧
    (∀ (env : FetchEnv) (s : ViewState), s.username = "" →
      (fetchGitHubData env s).1.loading = s.loading) ∧
    (∀ (env : FetchEnv) (s : ViewState), s.username ≠ "" →
      (fetchGitHubData env s).1.loading = false) ∧
    (∀ (env : FetchEnv) (s : ViewState), s.loading = false →
      (fetchGitHubData env s).1.loading = false) := by
  refine ⟨rfl, ?_, ?_, ?_⟩
  · intro env s h
    simp [fetchGitHubData, h]
  · intro env s h
    obtain ⟨p, r⟩ := env
    cases p <;> cases r <;> simp [fetchGitHubData, h]
  · intro env s h
    by_cases hu : s.username = ""
    · simp [fetchGitHubData, hu, h]
    · obtain ⟨p, r⟩ := env
      cases p <;> cases r <;> simp [fetchGitHubData, hu]

/-- Witness for C10: a concrete successful search flips `loading` to
false. -/
theorem loading_lifecycle_witness :
    (fetchGitHubData fiveRepoEnv searchState).1.loading = false :=
  loading_lifecycle.2.2.1 fiveRepoEnv searchState (by decide)

/-- Bumping a language raises the total of all tallies by one. -/
theorem bumpLang_sum (acc : List (String × Nat)) (lang : String) :
    ((bumpLang acc lang).map Prod.snd).sum = ((acc.map Prod.snd).sum) + 1 := by
  induction acc with
  | nil => simp [bumpLang]
  | cons p rest ih =>
    obtain ⟨k, v⟩ := p
    by_cases h : k = lang
    · simp [bumpLang, h]
      omega
    · simp [bumpLang, h, ih]
      omega

/-- Looking up the bumped language reads one more than before. -/
theorem bumpLang_lookup_self (acc : List (String × Nat)) (lang : String) :
    (bumpLang acc lang).lookup lang = some (((acc.lookup lang).getD 0) + 1) := by
  induction acc with
  | nil => simp [bumpLang, List.lookup]
  | cons p rest ih =>
    obtain ⟨k, v⟩ := p
    by_cases h : k = lang
    · subst h
      simp [bumpLang, List.lookup]
    · simp [bumpLang, List.lookup, h, beq_false_of_ne h, beq_false_of_ne (Ne.symm h), ih]

/-- Looking up any other language is unaffected by a bump. -/
theorem bumpLang_lookup_ne (acc : List (String × Nat)) (lang k : String) (h : k ≠ lang) :
    (bumpLang acc lang).lookup k = acc.lookup k := by
  induction acc with
  | nil => simp [bumpLang, List.lookup, beq_false_of_ne h]
  | cons p rest ih =>
    obtain ⟨k2, v⟩ := p
    by_cases h2 : k2 = lang
    · subst h2
      simp [bumpLang, List.lookup, beq_false_of_ne h]
    · simp [bumpLang, List.lookup, h2, ih]

/-- Bumping a language already tallied keeps the key sequence. -/
theorem bumpLang_keys_mem (acc : List (String × Nat)) (lang : String)
    (h : lang ∈ acc.map Prod.fst) :
    (bumpLang acc lang).map Prod.fst = acc.map Prod.fst := by
  induction acc with
  | nil => simp at h
  | cons p rest ih =>
    obtain ⟨k, v⟩ := p
    by_cases h2 : k = lang
    · simp [bumpLang, h2]
    · have hrest : lang ∈ rest.map Prod.fst := by
        simp only [List.map_cons, List.mem_cons] at h
        rcases h with h | h
        · exact absurd h.symm h2
        · exact h
      simp [bumpLang, h2, ih hrest]

/-- Bumping a language not yet tallied appends its key at the end. -/
theorem bumpLang_keys_new (acc : List (String × Nat)) (lang : String)
    (h : lang ∉ acc.map Prod.fst) :
    (bumpLang acc lang).map Prod.fst = acc.map Prod.fst ++ [lang] := by
  induction acc with
  | nil => simp [bumpLang]
  | cons p rest ih =>
    obtain ⟨k, v⟩ := p
    simp only [List.map_cons, List.mem_cons] at h
    push_neg at h
    by_cases h2 : k = lang
    · exact absurd h2.symm h.1
    · simp [bumpLang, h2, ih h.2]

/-- A bump keeps every tally positive. -/
theorem bumpLang_pos (acc : List (String × Nat)) (lang : String)
    (h : ∀ p ∈ acc, 0 < p.2) : ∀ p ∈ bumpLang acc lang, 0 < p.2 := by
  induction acc with
  | nil =>
    intro p hp
    simp [bumpLang] at hp
    subst hp
    exact Nat.one_pos
  | cons q rest ih =>
    obtain ⟨k, v⟩ := q
    intro p hp
    by_cases h2 : k = lang
    · simp [bumpLang, h2, List.mem_cons] at hp
      rcases hp with hp | hp
      · subst hp
        simp
      · exact h p (List.mem_cons_of_mem _ hp)
    · simp only [bumpLang, if_neg h2, List.mem_cons] at hp
      rcases hp with hp | hp
      · subst hp
        exact h (k, v) (List.mem_cons_self _ _)
      · exact ih (fun q hq => h q (List.mem_cons_of_mem _ hq)) p hp

/-- A bump keeps the keys free of duplicates. -/
theorem bumpLang_keys_nodup (acc : List (String × Nat)) (lang : String)
    (h : (acc.map Prod.fst).Nodup) : ((bumpLang acc lang).map Prod.fst).Nodup := by
  by_cases hm : lang ∈ acc.map Prod.fst
  · rw [bumpLang_keys_mem acc lang hm]
    exact h
  · rw [bumpLang_keys_new acc lang hm]
    simp [List.nodup_append, h, hm]

/-- Keys after a bump come from the old keys or are the bumped language. -/
theorem bumpLang_keys_subset (acc : List (String × Nat)) (lang k : String)
    (h : k ∈ (bumpLang acc lang).map Prod.fst) :
    k ∈ acc.map Prod.fst ∨ k = lang := by
  by_cases hm : lang ∈ acc.map Prod.fst
  · rw [bumpLang_keys_mem acc lang hm] at h
    exact Or.inl h
  · rw [bumpLang_keys_new acc lang hm] at h
    simp only [List.mem_append, List.mem_singleton] at h
    exact h

/-- The reduce over repositories equals the plain fold of `bumpLang` over
the truthy language sequence. -/
theorem foldl_langStep_eq (repos : List RepoData) :
    ∀ acc, repos.foldl langStep acc = (truthyLangs repos).foldl bumpLang acc := by
  induction repos with
  | nil =>
    intro acc
    simp [truthyLangs]
  | cons r rest ih =>
    intro acc
    simp only [List.foldl_cons]
    cases hl : r.language with
    | none =>
      rw [show langStep acc r = acc by simp [langStep, hl]]
      rw [ih acc]
      simp [truthyLangs, List.filterMap_cons, hl]
    | some lang =>
      by_cases he : lang = ""
      · rw [show langStep acc r = acc by simp [langStep, hl, he]]
        rw [ih acc]
        subst he
        simp [truthyLangs, List.filterMap_cons, hl]
      · rw [show langStep acc r = bumpLang acc lang by simp [langStep, hl, he]]
        rw [ih (bumpLang acc lang)]
        simp [truthyLangs, List.filterMap_cons, hl, he]

/-- Folding bumps adds the occurrence count of each language to its
tally. -/
theorem foldl_bumpLang_lookup (langs : List String) :
    ∀ (acc : List (String × Nat)) (k : String),
      ((langs.foldl bumpLang acc).lookup k).getD 0
        = ((acc.lookup k).getD 0) + (langs.filter (fun x => decide (x = k))).length := by
  induction langs with
  | nil =>
    intro acc k
    simp
  | cons lang rest ih =>
    intro acc k
    simp only [List.foldl_cons]
    by_cases h : lang = k
    · subst h
      rw [ih (bumpLang acc lang) lang, bumpLang_lookup_self]
      simp [List.filter_cons]
      omega
    · rw [ih (bumpLang acc lang) k, bumpLang_lookup_ne acc lang k (Ne.symm h)]
      simp [List.filter_cons, h]

/-- Folding bumps adds the number of occurrences to the total tally. -/
theorem foldl_bumpLang_sum (langs : List String) :
    ∀ acc, ((langs.foldl bumpLang acc).map Prod.snd).sum
      = ((acc.map Prod.snd).sum) + langs.length := by
  induction langs with
  | nil =>
    intro acc
    simp
  | cons lang rest ih =>
    intro acc
    simp only [List.foldl_cons, List.length_cons]
    rw [ih (bumpLang acc lang), bumpLang_sum]
    omega

/-- Folding bumps keeps every tally positive. -/
theorem foldl_bumpLang_pos (langs : List String) :
    ∀ acc, (∀ p ∈ acc, 0 < p.2) → ∀ p ∈ langs.foldl bumpLang acc, 0 < p.2 := by
  induction langs with
  | nil =>
    intro acc h
    exact h
  | cons lang rest ih =>
    intro acc h
    simp only [List.foldl_cons]
    exact ih (bumpLang acc lang) (bumpLang_pos acc lang h)

/-- Folding bumps keeps the keys free of duplicates. -/
theorem foldl_bumpLang_nodup (langs : List String) :
    ∀ acc, (acc.map Prod.fst).Nodup → (((langs.foldl bumpLang acc)).map Prod.fst).Nodup := by
  induction langs with
  | nil =>
    intro acc h
    exact h
  | cons lang rest ih =>
    intro acc h
    simp only [List.foldl_cons]
    exact ih (bumpLang acc lang) (bumpLang_keys_nodup acc lang h)

/-- Every key after folding bumps was a key before or occurs in the
language sequence. -/
theorem foldl_bumpLang_keys_from (langs : List String) :
    ∀ (acc : List (String × Nat)) (k : String),
      k ∈ (langs.foldl bumpLang acc).map Prod.fst →
      k ∈ acc.map Prod.fst ∨ k ∈ langs := by
  induction langs with
  | nil =>
    intro acc k h
    exact Or.inl h
  | cons lang rest ih =>
    intro acc k h
    simp only [List.foldl_cons] at h
    rcases ih (bumpLang acc lang) k h with h2 | h2
    · rcases bumpLang_keys_subset acc lang k h2 with h3 | h3
      · exact Or.inl h3
      · exact Or.inr (h3 ▸ List.mem_cons_self lang rest)
    · exact Or.inr (List.mem_cons_of_mem lang h2)

/-- With duplicate-free keys, association-list membership determines the
lookup. -/
theorem lookup_eq_of_mem (acc : List (String × Nat)) (k : String) (c : Nat)
    (hnodup : (acc.map Prod.fst).Nodup) (hmem : (k, c) ∈ acc) :
    acc.lookup k = some c := by
  induction acc with
  | nil => simp at hmem
  | cons p rest ih =>
    obtain ⟨k2, v⟩ := p
    simp only [List.map_cons, List.nodup_cons] at hnodup
    rcases List.mem_cons.1 hmem with hq | hq
    · have hk : k = k2 := congrArg Prod.fst hq
      have hv : c = v := congrArg Prod.snd hq
      subst hk
      subst hv
      simp [List.lookup]
    · have hk2 : k ≠ k2 := by
        intro hcontra
        subst hcontra
        exact hnodup.1 (List.mem_map.2 ⟨(k, c), hq, rfl⟩)
      simp only [List.lookup, beq_false_of_ne hk2]
      exact ih hnodup.2 hq

/-- Members of the truthy language sequence are never the empty string. -/
theorem truthyLangs_ne_empty (repos : List RepoData) (k : String)
    (h : k ∈ truthyLangs repos) : k ≠ "" := by
  have h2 := (List.mem_filter.1 h).2
  intro hcontra
  subst hcontra
  simp at h2

/-- Occurrences of a non-empty language in the truthy sequence match the
repositories carrying exactly that language. -/
theorem truthyLangs_count (repos : List RepoData) (k : String) (hk : k ≠ "") :
    ((truthyLangs repos).filter (fun x => decide (x = k))).length
      = (repos.filter (fun r => decide (r.language = some k))).length := by
  induction repos with
  | nil => simp [truthyLangs]
  | cons r rest ih =>
    simp only [truthyLangs, List.filter_filter] at ih ⊢
    cases hl : r.language with
    | none =>
      have hne : ¬ r.language = some k := by
        rw [hl]
        exact fun hcontra => Option.noConfusion hcontra
      simp only [List.filterMap_cons, hl, List.filter_cons, hne, decide_False]
      simpa using ih
    | some lang =>
      by_cases he : lang = ""
      · subst he
        have hne : ¬ r.language = some k := by
          rw [hl]
          intro hcontra
          exact hk (Option.some.inj hcontra).symm
        simp only [List.filterMap_cons, hl, List.filter_cons, hne, decide_False]
        simpa [Ne.symm hk] using ih
      · by_cases hlk : lang = k
        · subst hlk
          have heq : r.language = some lang := hl
          simp only [List.filterMap_cons, hl, List.filter_cons, heq, decide_True]
          simpa [he] using ih
        · have hne : ¬ r.language = some k := by
            rw [hl]
            intro hcontra
            exact hlk (Option.some.inj hcontra)
          simp only [List.filterMap_cons, hl, List.filter_cons, hne, decide_False]
          simpa [hlk] using ih

/-- The truthy language sequence is as long as the list of repositories
passing the truthiness test. -/
theorem truthyLangs_length (repos : List RepoData) :
    (truthyLangs repos).length = (repos.filter languageTruthy).length := by
  induction repos with
  | nil => simp [truthyLangs]
  | cons r rest ih =>
    cases hl : r.language with
    | none =>
      have ht : languageTruthy r = false := by simp [languageTruthy, hl]
      simp only [truthyLangs, List.filterMap_cons, hl] at ih ⊢
      simp [List.filter_cons, ht, ih]
    | some lang =>
      by_cases he : lang = ""
      · subst he
        have ht : languageTruthy r = false := by simp [languageTruthy, hl]
        simp only [truthyLangs, List.filterMap_cons, hl] at ih ⊢
        simp [List.filter_cons, ht, ih]
      · have ht : languageTruthy r = true := by simp [languageTruthy, hl, he]
        simp only [truthyLangs, List.filterMap_cons, hl] at ih ⊢
        simp [List.filter_cons, ht, he, ih]

/-- C4 amended: every tally of the Language Aggregator is positive, keyed
by a non-empty language, and equals the exact number of repositories
carrying that language; and the total of all tallies equals the number of
repositories whose language passes the JavaScript truthiness test, that
is, is non-null AND non-empty — repositories whose language is the empty
string are excluded along with the null ones, so the total can fall short
of the count of repositories with a merely non-null language. -/
theorem language_aggregator_counts (repos : List RepoData) :
    (∀ p ∈ languageUsage repos,
      0 < p.2 ∧ p.1 ≠ "" ∧
        p.2 = (repos.filter (fun r => decide (r.language = some p.1))).length) ∧
    ((languageUsage repos).map Prod.snd).sum = (repos.filter languageTruthy).length := by
  have hfold : languageUsage repos = (truthyLangs repos).foldl bumpLang [] := by
    rw [languageUsage, foldl_langStep_eq]
  constructor
  · intro p hp
    obtain ⟨k, c⟩ := p
    have hpos : 0 < c := by
      have := foldl_bumpLang_pos (truthyLangs repos) [] (by simp) (k, c) (hfold ▸ hp)
      simpa using this
    have hkey : k ∈ (languageUsage repos).map Prod.fst :=
      List.mem_map.2 ⟨(k, c), hp, rfl⟩
    have hkne : k ≠ "" := by
      rcases foldl_bumpLang_keys_from (truthyLangs repos) [] k (hfold ▸ hkey) with h2 | h2
      · simp at h2
      · exact truthyLangs_ne_empty repos k h2
    have hnodup : ((languageUsage repos).map Prod.fst).Nodup := by
      rw [hfold]
      exact foldl_bumpLang_nodup (truthyLangs repos) [] (by simp)
    have hlook : (languageUsage repos).lookup k = some c :=
      lookup_eq_of_mem (languageUsage repos) k c hnodup hp
    have hcount : (((languageUsage repos).lookup k).getD 0)
        = ((truthyLangs repos).filter (fun x => decide (x = k))).length := by
      rw [hfold, foldl_bumpLang_lookup]
      simp
    refine ⟨hpos, hkne, ?_⟩
    have : c = ((truthyLangs repos).filter (fun x => decide (x = k))).length := by
      rw [← hcount, hlook]
      rfl
    rw [this, truthyLangs_count repos k hkne]
  · rw [hfold, foldl_bumpLang_sum, ← truthyLangs_length]
    simp

/-- Witness for C4 at a concrete input: two TypeScript repositories and
one with no language give the tally 2. -/
theorem language_aggregator_counts_witness :
    0 < ("TypeScript", 2).2 ∧ ("TypeScript", 2).1 ≠ "" ∧
      ("TypeScript", 2).2 = (twoLangRepos.filter
        (fun r => decide (r.language = some ("TypeScript", 2).1))).length :=
  (language_aggregator_counts twoLangRepos).1 ("TypeScript", 2) (by decide)

/-- C4 counterexample: a repository whose language is the empty string is
non-null yet falsy, so it is excluded and the tally total 0 differs from
the non-null count 1. -/
theorem language_sum_misses_empty_string :
    ((languageUsage [emptyLangRepo]).map Prod.snd).sum = 0 ∧
    ([emptyLangRepo].filter (fun r => decide (r.language.isSome))).length = 1 ∧
    ¬ ((languageUsage [emptyLangRepo]).map Prod.snd).sum
        = ([emptyLangRepo].filter (fun r => decide (r.language.isSome))).length := by
  refine ⟨by decide, by decide, by decide⟩

/-- The first-occurrence scan depends on the seen set only through
membership. -/
theorem firstOcc_congr (langs : List String) :
    ∀ (s1 s2 : List String), (∀ x, x ∈ s1 ↔ x ∈ s2) →
      firstOcc s1 langs = firstOcc s2 langs := by
  induction langs with
  | nil =>
    intro s1 s2 h
    simp [firstOcc]
  | cons lang rest ih =>
    intro s1 s2 h
    simp only [firstOcc]
    by_cases hm : lang ∈ s1
    · rw [if_pos hm, if_pos ((h lang).1 hm), ih s1 s2 h]
    · rw [if_neg hm, if_neg (fun hc => hm ((h lang).2 hc))]
      rw [ih (lang :: s1) (lang :: s2) ?_]
      intro x
      simp [h x]

/-- Folding bumps appends exactly the first occurrences of the languages
not yet tallied, in input order. -/
theorem foldl_bumpLang_keys (langs : List String) :
    ∀ (acc : List (String × Nat)),
      (langs.foldl bumpLang acc).map Prod.fst
        = acc.map Prod.fst ++ firstOcc (acc.map Prod.fst) langs := by
  induction langs with
  | nil =>
    intro acc
    simp [firstOcc]
  | cons lang rest ih =>
    intro acc
    simp only [List.foldl_cons, firstOcc]
    by_cases hm : lang ∈ acc.map Prod.fst
    · rw [if_pos hm, ih (bumpLang acc lang), bumpLang_keys_mem acc lang hm]
    · rw [if_neg hm, ih (bumpLang acc lang), bumpLang_keys_new acc lang hm]
      rw [firstOcc_congr rest (acc.map Prod.fst ++ [lang]) (lang :: acc.map Prod.fst) ?_]
      · simp
      · intro x
        simp [or_comm]

/-- The keys of the aggregation are the truthy languages in insertion
order of first occurrence. -/
theorem languageUsage_keys (repos : List RepoData) :
    (languageUsage repos).map Prod.fst = firstOccLangs repos := by
  rw [languageUsage, foldl_langStep_eq, foldl_bumpLang_keys]
  simp [firstOccLangs]

/-- When no key is a canonical array index, `Object.keys` enumerates in
property creation order. -/
theorem jsObjectKeys_no_numeric (entries : List (String × Nat))
    (h : ∀ k ∈ entries.map Prod.fst, isArrayIndexStr k = false) :
    jsObjectKeys entries = entries.map Prod.fst := by
  unfold jsObjectKeys
  have h1 : (entries.map Prod.fst).filter isArrayIndexStr = [] := by
    rw [List.filter_eq_nil_iff]
    intro k hk
    simp [h k hk]
  have h2 : (entries.map Prod.fst).filter (fun k => !isArrayIndexStr k)
      = entries.map Prod.fst := by
    rw [List.filter_eq_self]
    intro k hk
    simp [h k hk]
  rw [h1, h2]
  simp [List.insertionSort]

/-- C6 amended: the donut chart lists one entry per distinct truthy
language, ordered with canonical array-index language names first in
ascending numeric order and all remaining names in insertion order of
first occurrence; in particular, whenever no language name is a
numeric-like string, the order is exactly the insertion order of first
occurrence — but a numeric-like name such as "1" is hoisted to the front,
so first-occurrence order does NOT hold for those. -/
theorem donut_order_first_occurrence (repos : List RepoData)
    (h : ∀ k ∈ firstOccLangs repos, isArrayIndexStr k = false) :
    (donutChartData repos).map Prod.fst = firstOccLangs repos := by
  unfold donutChartData
  rw [List.map_map]
  have hcomp : (Prod.fst ∘ fun key => (key, ((languageUsage repos).lookup key).getD 0))
      = id := rfl
  rw [hcomp, List.map_id]
  rw [jsObjectKeys_no_numeric (languageUsage repos) ?_, languageUsage_keys]
  intro k hk
  rw [languageUsage_keys] at hk
  exact h k hk

/-- Witness for C6 at a concrete input: languages Rust, Go, Rust give the
chart order Rust then Go, their first-occurrence order. -/
theorem donut_order_first_occurrence_witness :
    (donutChartData rustGoRepos).map Prod.fst = firstOccLangs rustGoRepos :=
  donut_order_first_occurrence rustGoRepos (by decide)

/-- C6 counterexample: with languages B then 1 in input order, the chart
lists 1 before B — `Object.keys` hoists the numeric-like name — so the
claimed insertion order of first occurrence fails. -/
theorem donut_order_numeric_hoisted :
    (donutChartData numericLangRepos).map Prod.fst = ["1", "B"] ∧
    firstOccLangs numericLangRepos = ["B", "1"] ∧
    ¬ (donutChartData numericLangRepos).map Prod.fst = firstOccLangs numericLangRepos := by
  refine ⟨by decide, by decide, by decide⟩

/-- C9: on a non-empty sorted repository list the summary sentence
contains, verbatim and in template position, the display name falling
back to the login, the join year extracted from `created_at`, the
public-repository, follower and following counts, and the name and star
count of the first (most recently updated) repository of the list. -/
theorem summary_mentions_profile_fields (userData : GitHubData) (repos : List RepoData)
    (r : RepoData) (rest : List RepoData) (h : repos = r :: rest) :
    strContains (generateAiSummary userData repos) (jsOr userData.name userData.login) ∧
    strContains (generateAiSummary userData repos)
      (", who joined GitHub in " ++ toString (getFullYear userData.created_at)
        ++ ". They have ") ∧
    strContains (generateAiSummary userData repos)
      (". They have " ++ toString userData.public_repos ++ " public repositories, ") ∧
    strContains (generateAiSummary userData repos)
      (toString userData.followers ++ " followers, and are following ") ∧
    strContains (generateAiSummary userData repos)
      (" followers, and are following " ++ toString userData.following
        ++ " users. Their most popular repository is \"") ∧
    strContains (generateAiSummary userData repos)
      (" users. Their most popular repository is \"" ++ r.name ++ "\" with "
        ++ toString r.stargazers_count ++ " stars.") := by
  subst h
  refine ⟨?_, ?_, ?_, ?_, ?_, ?_⟩
  · refine ⟨"This GitHub profile belongs to ",
      ", who joined GitHub in " ++ toString (getFullYear userData.created_at)
        ++ ". They have " ++ toString userData.public_repos ++ " public repositories, "
        ++ toString userData.followers ++ " followers, and are following "
        ++ toString userData.following ++ " users. Their most popular repository is \""
        ++ r.name ++ "\" with " ++ toString r.stargazers_count ++ " stars.", ?_⟩
    simp [generateAiSummary, firstRepoName, firstRepoStars, String.append_assoc]
  · refine ⟨"This GitHub profile belongs to " ++ jsOr userData.name userData.login,
      toString userData.public_repos ++ " public repositories, "
        ++ toString userData.followers ++ " followers, and are following "
        ++ toString userData.following ++ " users. Their most popular repository is \""
        ++ r.name ++ "\" with " ++ toString r.stargazers_count ++ " stars.", ?_⟩
    simp [generateAiSummary, firstRepoName, firstRepoStars, String.append_assoc]
  · refine ⟨"This GitHub profile belongs to " ++ jsOr userData.name userData.login
        ++ ", who joined GitHub in " ++ toString (getFullYear userData.created_at),
      toString userData.followers ++ " followers, and are following "
        ++ toString userData.following ++ " users. Their most popular repository is \""
        ++ r.name ++ "\" with " ++ toString r.stargazers_count ++ " stars.", ?_⟩
    simp [generateAiSummary, firstRepoName, firstRepoStars, String.append_assoc]
  · refine ⟨"This GitHub profile belongs to " ++ jsOr userData.name userData.login
        ++ ", who joined GitHub in " ++ toString (getFullYear userData.created_at)
        ++ ". They have " ++ toString userData.public_repos ++ " public repositories, ",
      toString userData.following ++ " users. Their most popular repository is \""
        ++ r.name ++ "\" with " ++ toString r.stargazers_count ++ " stars.", ?_⟩
    simp [generateAiSummary, firstRepoName, firstRepoStars, String.append_assoc]
  · refine ⟨"This GitHub profile belongs to " ++ jsOr userData.name userData.login
        ++ ", who joined GitHub in " ++ toString (getFullYear userData.created_at)
        ++ ". They have " ++ toString userData.public_repos ++ " public repositories, "
        ++ toString userData.followers,
      r.name ++ "\" with " ++ toString r.stargazers_count ++ " stars.", ?_⟩
    simp [generateAiSummary, firstRepoName, firstRepoStars, String.append_assoc]
  · refine ⟨"This GitHub profile belongs to " ++ jsOr userData.name userData.login
        ++ ", who joined GitHub in " ++ toString (getFullYear userData.created_at)
        ++ ". They have " ++ toString userData.public_repos ++ " public repositories, "
        ++ toString userData.followers ++ " followers, and are following "
        ++ toString userData.following, "", ?_⟩
    simp [generateAiSummary, firstRepoName, firstRepoStars, String.append_assoc,
      String.append_empty]

/-- Witness for C9 on the scenario of the specification: sorting the ada
repositories puts B first and the summary highlights B with its 20
stars. -/
theorem summary_mentions_profile_fields_witness :
    strContains (generateAiSummary adaProfile (sortRepos adaRepos))
      (" users. Their most popular repository is \"" ++ repoB.name ++ "\" with "
        ++ toString repoB.stargazers_count ++ " stars.") :=
  (summary_mentions_profile_fields adaProfile (sortRepos adaRepos) repoB [repoA]
    (by decide)).2.2.2.2.2

/-- C1: on an empty repository list the summary does NOT omit the
highlighted-repository clause; the code interpolates the undefined
optional-chaining reads and the sentence ends with the star-count clause
rendered around the text "undefined" twice. -/
theorem summary_empty_list_star_clause :
    strContains (generateAiSummary adaProfile [])
      ("\"" ++ undefinedStr ++ "\" with " ++ undefinedStr ++ " stars.") ∧
    strContains (generateAiSummary adaProfile []) undefinedStr := by
  constructor
  · exact ⟨"This GitHub profile belongs to ada, who joined GitHub in 2015. They have 2 public repositories, 10 followers, and are following 1 users. Their most popular repository is ",
      "", rfl⟩
  · exact ⟨"This GitHub profile belongs to ada, who joined GitHub in 2015. They have 2 public repositories, 10 followers, and are following 1 users. Their most popular repository is \"",
      "\" with undefined stars.", rfl⟩

end Anyalyzerhub
